import Mathlib

/-!
# Verification of the Jupiter n8n node's quote / route / transaction utilities

Shallow embedding of the algorithmic core of `n8n-nodes-jupiter`:

* `src/nodes/Jupiter/utils/quoteUtils.ts` — amount formatting/parsing,
  quote-parameter validation, minimum-output slippage arithmetic, quote
  comparison;
* `src/nodes/Jupiter/utils/routeUtils.ts` — route summaries, route filtering,
  route-efficiency analysis;
* `src/nodes/Jupiter/utils/transactionUtils.ts` — fee estimation, blockhash
  retry loop, confirmation polling.

Modelling conventions:
* JavaScript `BigInt` values are modelled as `Int` (or `Nat` where the source
  value is provably non-negative); `BigInt` division truncates toward zero,
  which is `Int.tdiv`.
* JavaScript `number` values that hold integers within ±2^53 are modelled as
  `Int`/`Nat`; fractional `number`s (route percentages, price impact) are
  modelled as `ℚ` with exact arithmetic.  Binary64 rounding is modelled
  explicitly only where it changes results: the expression `10 ** decimals`
  in `formatAmount` (see `jsPow10`).
* Strings holding decimal numerals are manipulated as `List Char` to mirror
  the source's string operations (`padStart`, `padEnd`, `slice`,
  `replace(/0+$/,'')`, `replace(/^0+/,'')`, `split('.')`).
* `async` functions are embedded as pure functions over an explicit trace of
  the responses the ledger (RPC) returns to each request; sleeping is
  modelled by the poll/attempt schedule, not by wall-clock time.
-/

/-! ## Binary64 model for the JS expression `10 ** decimals`

`formatAmount` computes its divisor as `BigInt(10 ** decimals)`.  The
exponentiation happens on IEEE-754 binary64 `number`s, so the divisor is the
integer value of `10^d` rounded to 53 significant bits (round to nearest,
ties to even).  For `d ≤ 22`, `10^d = 2^d * 5^d` with `5^d < 2^53`, so the
value is exact; from `d = 23` on it is not.  Binary64 exponent overflow
(magnitudes ≥ 2^1024, i.e. `d ≥ 309`) is outside the model's range of
interest and not modelled.
-/

/-- Shift needed to bring `n` below 2^53: the least `sh` with
`n < 2^53 * 2^sh` (0 for `n < 2^53`).  Searched over a fixed range so the
definition is structurally computable. -/
def dblShift (n : Nat) : Nat :=
  (((List.range 1200).find? (fun sh => n < 2 ^ 53 * 2 ^ sh)).getD 1200)

/-- Round a non-negative integer to 53 significant bits, round-to-nearest,
ties-to-even: the value a binary64 `number` holds for an integer of this
magnitude. -/
def roundDouble (n : Nat) : Nat :=
  let sh := dblShift n
  let p := 2 ^ sh
  let q := n / p
  let r := n % p
  if 2 * r > p ∨ (2 * r = p ∧ q % 2 = 1) then (q + 1) * p else q * p

/-- The integer value of the JS expression `10 ** d` evaluated in binary64
arithmetic (as consumed by `BigInt(10 ** decimals)` in `formatAmount`). -/
def jsPow10 (d : Nat) : Nat := roundDouble (10 ^ d)

/-! ## Decimal numerals

`BigInt.prototype.toString()` produces the canonical decimal numeral.  The
executable producer below (`decRepr`) is fuel-structural so that concrete
witnesses evaluate inside the kernel; `decRepr_eq` ties it to
Mathlib's `Nat.digits` for reasoning.
-/

/-- The character for a decimal digit `d < 10`. -/
def digitChar (d : Nat) : Char := Char.ofNat (48 + d)

/-- Fuel-driven big-endian decimal digit accumulator
(units digit is prepended last). -/
def decAux : Nat → Nat → List Char → List Char
  | 0, _, acc => acc
  | fuel + 1, n, acc =>
    if n = 0 then acc else decAux fuel (n / 10) (digitChar (n % 10) :: acc)

/-- Canonical decimal numeral of `n`, as a character list
(model of `BigInt(n).toString()`). -/
def decRepr (n : Nat) : List Char :=
  if n = 0 then ['0'] else decAux (n + 1) n []

/-- String version of `decRepr`. -/
def decReprStr (n : Nat) : String := String.mk (decRepr n)

/-! ## String helpers used by the source (modelled on `List Char`) -/

/-- `String.prototype.padStart(n, c)`. -/
def padStart (cs : List Char) (n : Nat) (c : Char) : List Char :=
  List.replicate (n - cs.length) c ++ cs

/-- `String.prototype.padEnd(n, c)`. -/
def padEnd (cs : List Char) (n : Nat) (c : Char) : List Char :=
  cs ++ List.replicate (n - cs.length) c

/-- `s.replace(/0+$/, '')`: drop all trailing `'0'` characters. -/
def trimTrailingZeros (cs : List Char) : List Char :=
  (cs.reverse.dropWhile (· == '0')).reverse

/-- `s.replace(/^0+/, '')`: drop all leading `'0'` characters. -/
def stripLeadingZeros (cs : List Char) : List Char :=
  cs.dropWhile (· == '0')

/-- The JS destructuring `const [whole, fraction = ''] = s.split('.')`:
the segment before the first `'.'` and the segment between the first and
second `'.'` (empty when there is no `'.'`). -/
def splitDot (cs : List Char) : List Char × List Char :=
  (cs.takeWhile (· ≠ '.'),
   ((cs.dropWhile (· ≠ '.')).drop 1).takeWhile (· ≠ '.'))

/-! ## `formatAmount` / `parseAmount` (quoteUtils.ts lines 97–128)

The source's `amount` argument to `formatAmount` is a decimal string fed to
`BigInt(amount)`; it is modelled by its integer value.  `parseAmount`'s
input is kept as a string (character list) because its behaviour is purely
string-level. -/

/-- `formatAmount(amount, decimals)` from quoteUtils.ts:
integer division of the raw amount by `BigInt(10 ** decimals)`; if the
remainder is zero, just the whole part; otherwise
`whole ++ "." ++ (fraction padded to `decimals` digits, trailing zeros
trimmed)`. -/
def formatAmount (amount : Nat) (decimals : Nat) : String :=
  let divisor := jsPow10 decimals
  let whole := amount / divisor
  let fraction := amount % divisor
  if fraction = 0 then
    String.mk (decRepr whole)
  else
    let fractionStr := padStart (decRepr fraction) decimals '0'
    let trimmedFraction := trimTrailingZeros fractionStr
    String.mk (decRepr whole ++ '.' :: trimmedFraction)

/-- `parseAmount(amount, decimals)` from quoteUtils.ts (string input branch):
split on `'.'`, pad/truncate the fractional part to exactly `decimals`
digits, concatenate, strip leading zeros, defaulting to `"0"`. -/
def parseAmount (amount : String) (decimals : Nat) : String :=
  let (whole, fraction) := splitDot amount.data
  let paddedFraction := (padEnd fraction decimals '0').take decimals
  let rawAmount := whole ++ paddedFraction
  match stripLeadingZeros rawAmount with
  | [] => "0"
  | cs => String.mk cs

/-! ## Quote data model (quoteUtils.ts)

Only the fields consumed by the embedded functions are modelled.
`inAmount`/`outAmount` strings carrying decimal integers are modelled by
their `BigInt` values (`Int`); `priceImpactPct` is a decimal string read via
`parseFloat`, modelled by its exact rational value; route-step `percent` is
a JS `number`, modelled as `ℚ`. -/

/-- `swapMode: 'ExactIn' | 'ExactOut'`. -/
inductive SwapMode where
  | ExactIn : SwapMode
  | ExactOut : SwapMode
deriving DecidableEq, Repr

/-- `swapInfo` of a route-plan step (quoteUtils.ts `RoutePlanStep`). -/
structure SwapInfo where
  ammKey : String
  label : Option String
  inputMint : String
  outputMint : String
  inAmount : Int
  outAmount : Int
  feeAmount : Int
  feeMint : String
deriving DecidableEq, Repr

/-- One step of a quote's route plan. -/
structure RoutePlanStep where
  swapInfo : SwapInfo
  percent : ℚ
deriving DecidableEq, Repr

/-- `JupiterQuote` (fields used by the embedded utilities). -/
structure JupiterQuote where
  inputMint : String
  outputMint : String
  inAmount : Int
  outAmount : Int
  swapMode : SwapMode
  slippageBps : Int
  priceImpactPct : ℚ
  routePlan : List RoutePlanStep
deriving DecidableEq, Repr

/-! ## `calculateMinimumOutput` (quoteUtils.ts lines 279–285)

`BigInt` division truncates toward zero, hence `Int.tdiv`. -/

/-- `calculateMinimumOutput(outAmount, slippageBps)`:
`(amount * (10000n - slippage)) / 10000n` with `BigInt` (truncating)
division.  The decimal-string in/out boundary (`BigInt(outAmount)`,
`.toString()`) is modelled by the integer values. -/
def calculateMinimumOutput (outAmount : Int) (slippageBps : Int) : Int :=
  Int.tdiv (outAmount * (10000 - slippageBps)) 10000

/-! ## `compareQuotes` (quoteUtils.ts lines 307–325) -/

/-- `compareQuotes(quoteA, quoteB)`: for `ExactIn` (of `quoteA`), higher
`outAmount` wins; otherwise lower `inAmount` wins; ties give 0. -/
def compareQuotes (quoteA quoteB : JupiterQuote) : Int :=
  if quoteA.swapMode = SwapMode.ExactIn then
    if quoteA.outAmount > quoteB.outAmount then 1
    else if quoteA.outAmount < quoteB.outAmount then -1
    else 0
  else
    if quoteA.inAmount < quoteB.inAmount then 1
    else if quoteA.inAmount > quoteB.inAmount then -1
    else 0

/-! ## `validateQuoteParams` (quoteUtils.ts lines 151–191) -/

/-- `Partial<QuoteParams>` restricted to the fields the validator reads.
`none` is JS `undefined`. -/
structure QuoteParams where
  inputMint : Option String
  outputMint : Option String
  amount : Option String
  slippageBps : Option Int
  platformFeeBps : Option Int
deriving DecidableEq, Repr

/-- JS truthiness of an optional string: `undefined` and `""` are falsy. -/
def jsTruthy : Option String → Bool
  | none => false
  | some s => s ≠ ""

/-- Value of a list of decimal digit characters. -/
def digitsVal (cs : List Char) : Nat :=
  cs.foldl (fun acc c => 10 * acc + (c.toNat - 48)) 0

/-- `Number(s)` for plain decimal numerals (model of the JS numeric
coercion used by the validator's `isNaN(Number(x)) || Number(x) <= 0`
check): an optional leading `'-'`, then digits with at most one `'.'`,
at least one digit in total.  Other numeric syntaxes JS would accept
(exponents, hex, `Infinity`, surrounding whitespace) are outside the model,
and the value is kept exact in `ℚ` (binary64 rounding preserves the sign
tests the validator performs, except for subnormal underflow, which is
outside the model). `none` models `NaN`. -/
def jsNum? (s : String) : Option ℚ :=
  let (neg, cs) := match s.data with
    | '-' :: rest => (true, rest)
    | cs => (false, cs)
  let intPart := cs.takeWhile Char.isDigit
  let rest := cs.drop intPart.length
  let mag : Option (Int × Nat) := match rest with
    | [] => if intPart = [] then none else some ((digitsVal intPart : Int), 1)
    | '.' :: frac =>
      if frac.all Char.isDigit ∧ (intPart ≠ [] ∨ frac ≠ []) then
        some ((digitsVal intPart * 10 ^ frac.length + digitsVal frac : Int),
          10 ^ frac.length)
      else none
    | _ => none
  match mag with
  | none => none
  | some (n, den) => some (mkRat (if neg then -n else n) den)

/-- Result record of `validateQuoteParams`. -/
structure ValidationResult where
  valid : Bool
  errors : List String
deriving DecidableEq, Repr

/-- The amount check `isNaN(Number(a)) || Number(a) <= 0` (executed only
when `amount` is truthy). -/
def amountNotPositive (a : String) : Bool :=
  match jsNum? a with
  | none => true
  | some q => q ≤ 0

/-- `validateQuoteParams(params)`: accumulates one message per violated
rule, in source order; `valid` iff no message was accumulated. -/
def validateQuoteParams (params : QuoteParams) : ValidationResult :=
  let errors :=
    (if ¬jsTruthy params.inputMint then ["Input mint address is required"] else []) ++
    (if ¬jsTruthy params.outputMint then ["Output mint address is required"] else []) ++
    (if ¬jsTruthy params.amount then ["Amount is required"]
     else if amountNotPositive (params.amount.getD "") then
       ["Amount must be a positive number"]
     else []) ++
    (if jsTruthy params.inputMint ∧ jsTruthy params.outputMint ∧
        params.inputMint = params.outputMint then
       ["Input and output tokens must be different"] else []) ++
    (match params.slippageBps with
     | some s => if s < 0 ∨ s > 10000 then
         ["Slippage must be between 0 and 10000 basis points"] else []
     | none => []) ++
    (match params.platformFeeBps with
     | some f => if f < 0 ∨ f > 10000 then
         ["Platform fee must be between 0 and 10000 basis points"] else []
     | none => [])
  { valid := errors.isEmpty, errors := errors }

/-! ## Route utilities (routeUtils.ts)

JS `Set`/`Map` preserve insertion order; they are modelled as lists with
add-if-absent / update-or-append operations. -/

/-- `Set.prototype.add` followed by `Array.from`: append if absent. -/
def addUnique (xs : List String) (x : String) : List String :=
  if x ∈ xs then xs else xs ++ [x]

/-- `Map.prototype.get`. -/
def mapGet (m : List (String × Int)) (k : String) : Option Int :=
  (m.find? (fun p => p.1 = k)).map (fun p => p.2)

/-- `Map.prototype.set`: overwrite in place or append. -/
def mapSet (m : List (String × Int)) (k : String) (v : Int) : List (String × Int) :=
  if (m.find? (fun p => p.1 = k)).isSome then
    m.map (fun p => if p.1 = k then (k, v) else p)
  else m ++ [(k, v)]

/-- `RouteSummary` (routeUtils.ts). -/
structure RouteSummary where
  totalHops : Nat
  dexesUsed : List String
  uniqueTokens : List String
  totalFees : List (String × Int)
  splitRoutes : Nat
  isDirectRoute : Bool
deriving DecidableEq, Repr

/-- `getRouteSummary(quote)` (routeUtils.ts lines 68–112).  The loop folds
over the route plan collecting DEX labels (truthy only), tokens, and
per-fee-mint totals; `splitRoutes` counts the steps whose input mint is the
quote's input mint (0 for an empty plan); `isDirectRoute` iff the plan has
exactly one step or exactly one split.  (The source also collects the set
of step percentages, which it never uses for the result; that dead set is
not modelled.) -/
def getRouteSummary (quote : JupiterQuote) : RouteSummary :=
  let acc := quote.routePlan.foldl
    (fun (acc : List String × List String × List (String × Int)) step =>
      let dexes := match step.swapInfo.label with
        | some l => if l ≠ "" then addUnique acc.1 l else acc.1
        | none => acc.1
      let tokens := addUnique (addUnique acc.2.1 step.swapInfo.inputMint)
        step.swapInfo.outputMint
      let currentFee := (mapGet acc.2.2 step.swapInfo.feeMint).getD 0
      let fees := mapSet acc.2.2 step.swapInfo.feeMint
        (currentFee + step.swapInfo.feeAmount)
      (dexes, tokens, fees))
    ([], [], [])
  let splitCount :=
    if quote.routePlan.length > 0 then
      (quote.routePlan.filter
        (fun step => step.swapInfo.inputMint = quote.inputMint)).length
    else 0
  { totalHops := quote.routePlan.length
    dexesUsed := acc.1
    uniqueTokens := acc.2.1
    totalFees := acc.2.2
    splitRoutes := splitCount
    isDirectRoute := decide (quote.routePlan.length = 1 ∨ splitCount = 1) }

/-- `Math.abs` on the exact rational model of a parsed float. -/
def jsAbs (q : ℚ) : ℚ := if q < 0 then -q else q

/-- Filter criteria of `filterRoutes` (all independently optional;
`directOnly` is read for truthiness only). -/
structure RouteFilterCriteria where
  maxPriceImpact : Option ℚ
  maxHops : Option Nat
  includeDexes : Option (List String)
  excludeDexes : Option (List String)
  directOnly : Bool
deriving Repr

/-- `quote.routePlan.map((step) => step.swapInfo.label).filter(Boolean)`:
drop absent and empty labels. -/
def routeDexes (quote : JupiterQuote) : List String :=
  ((quote.routePlan.map (fun s => s.swapInfo.label)).filterMap id).filter
    (fun l => l ≠ "")

/-- The per-quote predicate of `filterRoutes` (routeUtils.ts lines
199–242): every supplied criterion must pass. -/
def quotePasses (criteria : RouteFilterCriteria) (quote : JupiterQuote) : Bool :=
  (match criteria.maxPriceImpact with
   | some mp => !(jsAbs quote.priceImpactPct > mp)
   | none => true) &&
  (match criteria.maxHops with
   | some mh => !(quote.routePlan.length > mh)
   | none => true) &&
  (if criteria.directOnly then !(quote.routePlan.length > 1) else true) &&
  (match criteria.includeDexes with
   | some ds => if ds ≠ [] then (routeDexes quote).any (fun l => ds.contains l)
                else true
   | none => true) &&
  (match criteria.excludeDexes with
   | some ds => if ds ≠ [] then !(routeDexes quote).any (fun l => ds.contains l)
                else true
   | none => true)

/-- `filterRoutes(quotes, criteria)`. -/
def filterRoutes (quotes : List JupiterQuote) (criteria : RouteFilterCriteria) :
    List JupiterQuote :=
  quotes.filter (quotePasses criteria)

/-- Result record of `analyzeRouteEfficiency`. -/
structure RouteEfficiency where
  efficiency : ℚ
  hopsPercentage : List (String × ℚ)
  largestHop : Option String
  recommendation : String
deriving DecidableEq, Repr

/-- `analyzeRouteEfficiency(quote)` (routeUtils.ts lines 249–292):
`efficiency = max(0, 100 - |priceImpact| * 20)`; per-label percentage
totals; the label of the single largest-percent step; and a four-tier
recommendation keyed on the efficiency score. -/
def analyzeRouteEfficiency (quote : JupiterQuote) : RouteEfficiency :=
  let priceImpact := jsAbs quote.priceImpactPct
  let efficiency : ℚ := max 0 (100 - priceImpact * 20)
  let acc := quote.routePlan.foldl
    (fun (acc : List (String × ℚ) × Option (String × ℚ)) step =>
      let label := step.swapInfo.label.getD "Unknown"
      let prev := ((acc.1.find? (fun p => p.1 = label)).map (fun p => p.2)).getD 0
      let hops :=
        if (acc.1.find? (fun p => p.1 = label)).isSome then
          acc.1.map (fun p => if p.1 = label then (label, prev + step.percent) else p)
        else acc.1 ++ [(label, prev + step.percent)]
      let largest := match acc.2 with
        | none => some (label, step.percent)
        | some l => if step.percent > l.2 then some (label, step.percent) else some l
      (hops, largest))
    ([], none)
  let recommendation :=
    if efficiency ≥ 90 then "Excellent route with minimal price impact"
    else if efficiency ≥ 70 then "Good route, acceptable price impact"
    else if efficiency ≥ 50 then
      "Consider using a smaller trade size to reduce price impact"
    else
      "High price impact detected. Consider splitting the trade or waiting for better liquidity"
  { efficiency := efficiency
    hopsPercentage := acc.1
    largestHop := (acc.2.map (fun l => l.1))
    recommendation := recommendation }

/-! ## Transaction utilities (transactionUtils.ts)

`async` RPC calls are modelled by passing the ledger's responses in as
explicit data: `estimateTransactionFee` receives the `getFeeForMessage`
response; `getRecentBlockhash` receives the outcome of each fetch attempt;
`waitForConfirmation` receives the status-poll and transaction-lookup
responses indexed by poll number. -/

/-- `getFeeForMessage` RPC response (`fee.value : number | null`).  Both
branches of the source (versioned / legacy) issue the same call and apply
the same fallback, so the transaction branch is not modelled. -/
structure FeeForMessageResponse where
  value : Option Int
deriving DecidableEq, Repr

/-- `estimateTransactionFee` (transactionUtils.ts lines 263–276):
`fee.value || 5000` — the fallback constant is used for a `null` fee and
for any falsy (zero) fee value. -/
def estimateTransactionFee (fee : FeeForMessageResponse) : Int :=
  match fee.value with
  | some v => if v = 0 then 5000 else v
  | none => 5000

/-- `getLatestBlockhash` success payload. -/
structure BlockhashResult where
  blockhash : String
  lastValidBlockHeight : Nat
deriving DecidableEq, Repr

/-- Retry loop of `getRecentBlockhash` (transactionUtils.ts lines
340–357): `attempt i` is the outcome of the `i`-th fetch; on failure the
loop records the error, sleeps `1000 * (i + 1)` ms (returned in the wait
list), and retries; when attempts are exhausted it throws the last error
(or a generic error if there was no attempt). -/
def getRecentBlockhashGo (attempt : Nat → Except String BlockhashResult) :
    Nat → Nat → Option String → List Nat →
      Except String BlockhashResult × List Nat
  | _, 0, lastError, waits =>
    (Except.error (lastError.getD "Failed to get recent blockhash"), waits)
  | i, remaining + 1, _, waits =>
    match attempt i with
    | Except.ok b => (Except.ok b, waits)
    | Except.error e =>
      getRecentBlockhashGo attempt (i + 1) remaining (some e)
        (waits ++ [1000 * (i + 1)])

/-- `getRecentBlockhash(connection, maxRetries = 3)`, returning the
result (`Except.error` models the final `throw`) together with the list of
back-off waits performed, in milliseconds. -/
def getRecentBlockhash (attempt : Nat → Except String BlockhashResult)
    (maxRetries : Nat := 3) : Except String BlockhashResult × List Nat :=
  getRecentBlockhashGo attempt 0 maxRetries none []

/-- `getSignatureStatus(...).value` (`null` when the signature is
unknown). -/
structure SignatureStatusValue where
  confirmationStatus : Option String
  slot : Nat
  err : Option String
deriving DecidableEq, Repr

/-- Result record of `getTransactionStatus`. -/
structure TxStatus where
  confirmed : Bool
  finalized : Bool
  slot : Option Nat
  err : Option String
deriving DecidableEq, Repr

/-- `getTransactionStatus` (transactionUtils.ts lines 197–223): `confirmed`
iff the reported status is `'confirmed'` or `'finalized'`. -/
def getTransactionStatus (resp : Option SignatureStatusValue) : TxStatus :=
  match resp with
  | none => { confirmed := false, finalized := false, slot := none, err := none }
  | some v =>
    { confirmed := decide (v.confirmationStatus = some "confirmed" ∨
        v.confirmationStatus = some "finalized")
      finalized := decide (v.confirmationStatus = some "finalized")
      slot := some v.slot
      err := v.err }

/-- `TransactionResult` (transactionUtils.ts). -/
structure TransactionResult where
  signature : String
  confirmed : Bool
  slot : Option Nat
  blockTime : Option Int
  err : Option String
deriving DecidableEq, Repr

/-- Number of status polls `waitForConfirmation` performs before the
deadline: polls happen at `t = 0, 1000, 2000, …` ms (1-second fixed
interval; lookups take no model time) while `t < timeoutMs`, i.e.
`⌈timeoutMs / 1000⌉` polls. -/
def numPolls (timeoutMs : Nat) : Nat := (timeoutMs + 999) / 1000

/-- `tx?.blockTime || undefined` on the `getTransaction` follow-up
response (`none` = transaction not found; `some bt` = found with the given
`blockTime`, itself nullable and modelled as 0 ↦ falsy). -/
def jsBlockTime (lookup : Option (Option Int)) : Option Int :=
  match lookup with
  | some (some bt) => if bt = 0 then none else some bt
  | _ => none

/-- Poll loop of `waitForConfirmation`: `k` is the current poll index,
the second argument the number of polls left before the deadline. -/
def waitForConfirmationGo (signature : String)
    (statusResp : Nat → Option SignatureStatusValue)
    (txLookup : Nat → Option (Option Int)) :
    Nat → Nat → TransactionResult
  | _, 0 =>
    { signature := signature, confirmed := false, slot := none,
      blockTime := none, err := some "Transaction confirmation timeout" }
  | k, remaining + 1 =>
    let status := getTransactionStatus (statusResp k)
    if status.confirmed then
      { signature := signature, confirmed := true, slot := status.slot,
        blockTime := jsBlockTime (txLookup k), err := status.err }
    else
      waitForConfirmationGo signature statusResp txLookup (k + 1) remaining

/-- `waitForConfirmation(connection, signature, timeoutMs = 60000, …)`
(transactionUtils.ts lines 367–402) over the trace of RPC responses:
polls `getTransactionStatus` once a second until it reports confirmed (then
returns slot from the status and blockTime from a `getTransaction`
follow-up) or the timeout elapses (then returns the fixed timeout
result). -/
def waitForConfirmation (signature : String)
    (statusResp : Nat → Option SignatureStatusValue)
    (txLookup : Nat → Option (Option Int))
    (timeoutMs : Nat := 60000) : TransactionResult :=
  waitForConfirmationGo signature statusResp txLookup 0 (numPolls timeoutMs)

/-- Example quotes for the C4 witness: same request, `ExactIn`, output
amounts 1050000 vs 1000000. -/
def exactInQuoteHigh : JupiterQuote :=
  ⟨"SOL", "USDC", 1000000, 1050000, SwapMode.ExactIn, 50, 0, []⟩

def exactInQuoteLow : JupiterQuote :=
  ⟨"SOL", "USDC", 1000000, 1000000, SwapMode.ExactIn, 50, 0, []⟩

/-- Attempt trace for the C6 witness: fails twice, succeeds on the third
attempt. -/
def failTwiceAttempt : Nat → Except String BlockhashResult :=
  fun i => if i = 0 then Except.error "boom0"
    else if i = 1 then Except.error "boom1"
    else Except.ok ⟨"hash", 42⟩

/-- The spec's split-route example: two parallel SOL→USDC steps with 60%
and 40% allocations. -/
def splitStep (pct : ℚ) : RoutePlanStep :=
  ⟨⟨"amm", some "Raydium", "SOL", "USDC", 100, 90, 1, "SOL"⟩, pct⟩

def splitRouteQuote : JupiterQuote :=
  ⟨"SOL", "USDC", 1000000, 900000, SwapMode.ExactIn, 50, 0,
    [splitStep 60, splitStep 40]⟩

/-- The `directOnly` criteria record for C10. -/
def directOnlyCriteria : RouteFilterCriteria := ⟨none, none, none, none, true⟩

/-- A single-branch two-hop quote (A→B→C): `getRouteSummary` calls it
direct (one split), while `filterRoutes`' `directOnly` rejects it. -/
def twoHopQuote : JupiterQuote :=
  ⟨"A", "C", 100, 90, SwapMode.ExactIn, 50, 0,
    [⟨⟨"amm1", some "Raydium", "A", "B", 100, 95, 1, "A"⟩, 100⟩,
     ⟨⟨"amm2", some "Orca", "B", "C", 95, 90, 1, "B"⟩, 100⟩]⟩

set_option maxRecDepth 200000

/-! ## Decimal numeral lemmas -/

theorem decAux_eq (fuel : Nat) : ∀ (n : Nat) (acc : List Char), n < 10 ^ fuel →
    decAux fuel n acc = ((Nat.digits 10 n).map digitChar).reverse ++ acc := by
  induction fuel with
  | zero =>
    intro n acc h
    simp only [pow_zero, Nat.lt_one_iff] at h
    subst h
    simp [decAux]
  | succ fuel ih =>
    intro n acc h
    by_cases hn : n = 0
    · subst hn; simp [decAux]
    · rw [decAux, if_neg hn]
      have hdiv : n / 10 < 10 ^ fuel := by
        rw [Nat.div_lt_iff_lt_mul (by norm_num)]
        calc n < 10 ^ (fuel + 1) := h
        _ = 10 ^ fuel * 10 := by ring
      rw [ih (n / 10) _ hdiv, Nat.digits_def' (by norm_num : 1 < 10) (Nat.pos_of_ne_zero hn)]
      simp

theorem decRepr_eq (n : Nat) :
    decRepr n = if n = 0 then ['0'] else ((Nat.digits 10 n).map digitChar).reverse := by
  by_cases hn : n = 0
  · subst hn; simp [decRepr]
  · rw [decRepr, if_neg hn, if_neg hn, decAux_eq _ _ _ ?_, List.append_nil]
    calc n < 10 ^ n := Nat.lt_pow_self (by norm_num) n
    _ ≤ 10 ^ (n + 1) := Nat.pow_le_pow_right (by norm_num) (Nat.le_succ n)

theorem digitChar_zero : digitChar 0 = '0' := rfl

theorem digitChar_ne_dot {d : Nat} (hd : d < 10) : digitChar d ≠ '.' := by
  interval_cases d <;> decide

theorem digitChar_eq_zero_iff {d : Nat} (hd : d < 10) : digitChar d = '0' ↔ d = 0 := by
  interval_cases d <;> simp_all <;> decide

theorem mem_decRepr {c : Char} {n : Nat} (hc : c ∈ decRepr n) :
    ∃ d, d < 10 ∧ c = digitChar d := by
  rw [decRepr_eq] at hc
  by_cases hn : n = 0
  · rw [if_pos hn] at hc
    simp only [List.mem_singleton] at hc
    exact ⟨0, by norm_num, by rw [hc, digitChar_zero]⟩
  · rw [if_neg hn] at hc
    simp only [List.mem_reverse, List.mem_map] at hc
    obtain ⟨d, hd, rfl⟩ := hc
    exact ⟨d, Nat.digits_lt_base (by norm_num) hd, rfl⟩

theorem mem_decRepr_ne_dot {c : Char} {n : Nat} (hc : c ∈ decRepr n) : c ≠ '.' := by
  obtain ⟨d, hd, rfl⟩ := mem_decRepr hc
  exact digitChar_ne_dot hd

theorem decRepr_head (n : Nat) (hn : n ≠ 0) :
    ∃ c l, decRepr n = c :: l ∧ (c == '0') = false := by
  have hne : Nat.digits 10 n ≠ [] := Nat.digits_ne_nil_iff_ne_zero.mpr hn
  have hlast : (Nat.digits 10 n).getLast hne ≠ 0 := Nat.getLast_digit_ne_zero 10 hn
  have hlt : (Nat.digits 10 n).getLast hne < 10 :=
    Nat.digits_lt_base (by norm_num) (List.getLast_mem hne)
  rw [decRepr_eq, if_neg hn]
  cases hd : ((Nat.digits 10 n).map digitChar).reverse with
  | nil =>
    exfalso
    rw [List.reverse_eq_nil_iff, List.map_eq_nil_iff] at hd
    exact hne hd
  | cons c l =>
    refine ⟨c, l, rfl, ?_⟩
    have hhead : ((Nat.digits 10 n).map digitChar).reverse.head? = some c := by
      rw [hd]; rfl
    rw [List.head?_reverse, List.getLast?_map,
      List.getLast?_eq_getLast _ hne] at hhead
    simp only [Option.map_some', Option.some.injEq] at hhead
    rw [beq_eq_false_iff_ne]
    intro hc0
    rw [hc0] at hhead
    exact hlast ((digitChar_eq_zero_iff hlt).mp hhead)

theorem decRepr_ne_nil (n : Nat) : decRepr n ≠ [] := by
  rw [decRepr_eq]
  by_cases hn : n = 0
  · simp [hn]
  · rw [if_neg hn]
    simp only [ne_eq, List.reverse_eq_nil_iff, List.map_eq_nil_iff]
    exact Nat.digits_ne_nil_iff_ne_zero.mpr hn

theorem decRepr_length (n : Nat) (hn : n ≠ 0) :
    (decRepr n).length = (Nat.digits 10 n).length := by
  rw [decRepr_eq, if_neg hn]; simp

theorem decRepr_length_le {f d : Nat} (hf : f ≠ 0) (hfd : f < 10 ^ d) :
    (decRepr f).length ≤ d := by
  rw [decRepr_length f hf, Nat.digits_len 10 f (by norm_num) hf]
  have := (Nat.lt_pow_iff_log_lt (by norm_num : 1 < 10) hf).mp hfd
  omega

theorem decRepr_mul_pow {w : Nat} (hw : 0 < w) (d : Nat) :
    decRepr (w * 10 ^ d) = decRepr w ++ List.replicate d '0' := by
  have key := Nat.digits_append_zeroes_append_digits
    (b := 10) (k := d) (m := w) (n := 0) (by norm_num) hw
  simp only [Nat.digits_zero, List.nil_append, List.length_nil, Nat.zero_add] at key
  have hne : w * 10 ^ d ≠ 0 :=
    Nat.mul_ne_zero hw.ne' (pow_ne_zero d (by norm_num))
  rw [decRepr_eq, if_neg hne, mul_comm, ← key, decRepr_eq w, if_neg hw.ne']
  simp [List.reverse_append, digitChar_zero]

theorem decRepr_concat {w f d : Nat} (hw : 0 < w) (hf : f ≠ 0) (hfd : f < 10 ^ d) :
    decRepr (w * 10 ^ d + f) = decRepr w ++ padStart (decRepr f) d '0' := by
  have hlen : (Nat.digits 10 f).length ≤ d := by
    rw [← decRepr_length f hf]; exact decRepr_length_le hf hfd
  have key := Nat.digits_append_zeroes_append_digits
    (b := 10) (k := d - (Nat.digits 10 f).length) (m := w) (n := f) (by norm_num) hw
  rw [Nat.add_sub_cancel' hlen] at key
  have hne : w * 10 ^ d + f ≠ 0 := by positivity
  have hval : w * 10 ^ d + f = f + 10 ^ d * w := by ring
  rw [hval, decRepr_eq, if_neg (by rw [← hval]; exact hne), ← key,
    decRepr_eq w, if_neg hw.ne']
  unfold padStart
  rw [decRepr_length f hf, decRepr_eq f, if_neg hf]
  simp [List.reverse_append, digitChar_zero, List.append_assoc]

/-! ## takeWhile / dropWhile helpers -/

theorem takeWhile_all {p : Char → Bool} :
    ∀ {A : List Char}, (∀ a ∈ A, p a = true) → A.takeWhile p = A := by
  intro A
  induction A with
  | nil => intro _; rfl
  | cons a l ih =>
    intro h
    rw [List.takeWhile_cons, if_pos (h a (by simp)), ih (fun b hb => h b (by simp [hb]))]

theorem dropWhile_all {p : Char → Bool} :
    ∀ {A : List Char}, (∀ a ∈ A, p a = true) → A.dropWhile p = [] := by
  intro A
  induction A with
  | nil => intro _; rfl
  | cons a l ih =>
    intro h
    rw [List.dropWhile_cons, if_pos (h a (by simp)), ih (fun b hb => h b (by simp [hb]))]

theorem dropWhile_append_all {p : Char → Bool} :
    ∀ {A : List Char} (B : List Char), (∀ a ∈ A, p a = true) →
      (A ++ B).dropWhile p = B.dropWhile p := by
  intro A
  induction A with
  | nil => intro B _; rfl
  | cons a l ih =>
    intro B h
    rw [List.cons_append, List.dropWhile_cons, if_pos (h a (by simp)),
      ih B (fun b hb => h b (by simp [hb]))]

theorem takeWhile_append_stop {p : Char → Bool} :
    ∀ {A : List Char} {b : Char} (B : List Char), (∀ a ∈ A, p a = true) → p b = false →
      (A ++ b :: B).takeWhile p = A := by
  intro A
  induction A with
  | nil =>
    intro b B _ hb
    rw [List.nil_append, List.takeWhile_cons, if_neg (by simp [hb])]
  | cons a l ih =>
    intro b B h hb
    rw [List.cons_append, List.takeWhile_cons, if_pos (h a (by simp)),
      ih B (fun c hc => h c (by simp [hc])) hb]

theorem dropWhile_append_stop {p : Char → Bool} {A : List Char} {b : Char} (B : List Char)
    (h : ∀ a ∈ A, p a = true) (hb : p b = false) :
    (A ++ b :: B).dropWhile p = b :: B := by
  rw [dropWhile_append_all _ h, List.dropWhile_cons, if_neg (by simp [hb])]

/-- Trailing-zero trimming is undone by re-padding with zeros on the right. -/
theorem trimTrailingZeros_spec (cs : List Char) :
    trimTrailingZeros cs ++ List.replicate (cs.length - (trimTrailingZeros cs).length) '0'
      = cs := by
  have hsplit := List.takeWhile_append_dropWhile (· == '0') cs.reverse
  have htake : cs.reverse.takeWhile (· == '0')
      = List.replicate (cs.reverse.takeWhile (· == '0')).length '0' := by
    apply List.eq_replicate_of_mem
    intro b hb
    have hpb := List.mem_takeWhile_imp hb
    exact eq_of_beq (by simpa using hpb)
  have hlen : (cs.reverse.takeWhile (· == '0')).length
      + (cs.reverse.dropWhile (· == '0')).length = cs.length := by
    have hcl := congrArg List.length hsplit
    rw [List.length_append, List.length_reverse] at hcl
    exact hcl
  apply List.reverse_injective
  unfold trimTrailingZeros
  rw [List.reverse_append, List.reverse_reverse, List.reverse_replicate,
    List.length_reverse]
  have hk : cs.length - (cs.reverse.dropWhile (· == '0')).length
      = (cs.reverse.takeWhile (· == '0')).length := by omega
  rw [hk, ← htake, hsplit]

/-! ## Exactness of the binary64 power for `d ≤ 22` -/

set_option maxRecDepth 40000 in
theorem jsPow10_eq_pow {d : Nat} (hd : d ≤ 22) : jsPow10 d = 10 ^ d := by
  have hall : ((List.range 23).all fun k => jsPow10 k == 10 ^ k) = true := by decide
  rw [List.all_eq_true] at hall
  exact eq_of_beq (hall d (List.mem_range.mpr (by omega)))

/-! ## Round trip of `parseAmount` after `formatAmount` -/

theorem decRepr_zero : decRepr 0 = ['0'] := rfl

/-- Parsing a pure whole-part numeral re-appends `d` zeros. -/
theorem parseAmount_whole (w d : Nat) :
    parseAmount (String.mk (decRepr w)) d = decReprStr (w * 10 ^ d) := by
  have hdot : ∀ c ∈ decRepr w, (decide (c ≠ '.')) = true := by
    intro c hc
    simpa using mem_decRepr_ne_dot hc
  show (match stripLeadingZeros
      ((splitDot (decRepr w)).1 ++
        (padEnd (splitDot (decRepr w)).2 d '0').take d) with
    | [] => "0"
    | cs => String.mk cs) = decReprStr (w * 10 ^ d)
  have hsplit1 : (splitDot (decRepr w)).1 = decRepr w := takeWhile_all hdot
  have hsplit2 : (splitDot (decRepr w)).2 = [] := by
    unfold splitDot
    rw [dropWhile_all hdot]
    rfl
  rw [hsplit1, hsplit2]
  have hpad : (padEnd [] d '0').take d = List.replicate d '0' := by
    unfold padEnd
    simp [List.take_replicate]
  rw [hpad]
  by_cases hw : w = 0
  · subst hw
    have hz : ∀ c ∈ decRepr 0 ++ List.replicate d '0', (c == '0') = true := by
      intro c hc
      rcases List.mem_append.mp hc with h | h
      · rw [decRepr_zero, List.mem_singleton] at h
        simp [h]
      · rw [List.eq_of_mem_replicate h]
        simp
    unfold stripLeadingZeros
    rw [dropWhile_all hz]
    simp [decReprStr, decRepr]
  · obtain ⟨c, l, hcl, hc0⟩ := decRepr_head w hw
    have hstrip : stripLeadingZeros (decRepr w ++ List.replicate d '0')
        = decRepr w ++ List.replicate d '0' := by
      unfold stripLeadingZeros
      rw [hcl, List.cons_append, List.dropWhile_cons, if_neg (by simp [hc0])]
    rw [hstrip, hcl]
    show String.mk (c :: (l ++ List.replicate d '0')) = decReprStr (w * 10 ^ d)
    rw [decReprStr, decRepr_mul_pow (Nat.pos_of_ne_zero hw) d, hcl]
    rfl

/-- Parsing a `whole.fraction` numeral produced by `formatAmount`'s
fractional branch reconstructs the raw amount's canonical numeral. -/
theorem parseAmount_frac (w f d : Nat) (hf : f ≠ 0) (hfd : f < 10 ^ d) :
    parseAmount
      (String.mk (decRepr w ++ '.' :: trimTrailingZeros (padStart (decRepr f) d '0'))) d
      = decReprStr (w * 10 ^ d + f) := by
  set F := padStart (decRepr f) d '0' with hF
  have hlenle : (decRepr f).length ≤ d := decRepr_length_le hf hfd
  have hFlen : F.length = d := by
    rw [hF]
    unfold padStart
    rw [List.length_append, List.length_replicate]
    omega
  have hFmem : ∀ c ∈ F, c = '0' ∨ c ∈ decRepr f := by
    intro c hc
    rw [hF] at hc
    unfold padStart at hc
    rcases List.mem_append.mp hc with h | h
    · exact Or.inl (List.eq_of_mem_replicate h)
    · exact Or.inr h
  have hFdot : ∀ c ∈ F, (decide (c ≠ '.')) = true := by
    intro c hc
    rcases hFmem c hc with h | h
    · simp [h]
    · simpa using mem_decRepr_ne_dot h
  have hwdot : ∀ c ∈ decRepr w, (decide (c ≠ '.')) = true := by
    intro c hc
    simpa using mem_decRepr_ne_dot hc
  set T := trimTrailingZeros F with hT
  have hTsub : ∀ c ∈ T, c ∈ F := by
    intro c hc
    rw [hT] at hc
    unfold trimTrailingZeros at hc
    rw [List.mem_reverse] at hc
    have := (List.dropWhile_sublist (l := F.reverse) (p := (· == '0'))).mem hc
    rwa [List.mem_reverse] at this
  have hTdot : ∀ c ∈ T, (decide (c ≠ '.')) = true := fun c hc => hFdot c (hTsub c hc)
  show (match stripLeadingZeros
      ((splitDot (decRepr w ++ '.' :: T)).1 ++
        (padEnd (splitDot (decRepr w ++ '.' :: T)).2 d '0').take d) with
    | [] => "0"
    | cs => String.mk cs) = decReprStr (w * 10 ^ d + f)
  have hsplit1 : (splitDot (decRepr w ++ '.' :: T)).1 = decRepr w :=
    takeWhile_append_stop T hwdot (by simp)
  have hsplit2 : (splitDot (decRepr w ++ '.' :: T)).2 = T := by
    unfold splitDot
    rw [dropWhile_append_stop T hwdot (by simp)]
    show T.takeWhile (fun c => decide (c ≠ '.')) = T
    exact takeWhile_all hTdot
  rw [hsplit1, hsplit2]
  have hpadT : (padEnd T d '0').take d = F := by
    unfold padEnd
    have := trimTrailingZeros_spec F
    rw [hFlen] at this
    rw [← hT] at this
    rw [this, ← hFlen, List.take_length]
  rw [hpadT]
  by_cases hw : w = 0
  · subst hw
    have hz : ∀ c ∈ (decRepr 0 : List Char), (c == '0') = true := by
      intro c hc
      rw [decRepr_zero, List.mem_singleton] at hc
      simp [hc]
    have hstrip : stripLeadingZeros (decRepr 0 ++ F) = decRepr f := by
      unfold stripLeadingZeros
      rw [dropWhile_append_all F hz, hF]
      unfold padStart
      rw [dropWhile_append_all (decRepr f)
        (fun c hc => by rw [List.eq_of_mem_replicate hc]; simp)]
      obtain ⟨c, l, hcl, hc0⟩ := decRepr_head f hf
      rw [hcl, List.dropWhile_cons, if_neg (by simp [hc0])]
    rw [hstrip]
    obtain ⟨c, l, hcl, _⟩ := decRepr_head f hf
    rw [hcl]
    show String.mk (c :: l) = decReprStr (0 * 10 ^ d + f)
    rw [decReprStr, Nat.zero_mul, Nat.zero_add, hcl]
  · obtain ⟨c, l, hcl, hc0⟩ := decRepr_head w hw
    have hstrip : stripLeadingZeros (decRepr w ++ F) = decRepr w ++ F := by
      unfold stripLeadingZeros
      rw [hcl, List.cons_append, List.dropWhile_cons, if_neg (by simp [hc0])]
    rw [hstrip, hcl]
    show String.mk (c :: (l ++ F)) = decReprStr (w * 10 ^ d + f)
    rw [decReprStr, decRepr_concat (Nat.pos_of_ne_zero hw) hf hfd, ← hF, hcl]
    rfl

/-- Round-trip law: for `d ≤ 22` (where `10 ** d` is exact in binary64),
`parseAmount` inverts `formatAmount`, returning the canonical decimal
numeral of the raw amount. -/
theorem parseAmount_formatAmount (x d : Nat) (hd : d ≤ 22) :
    parseAmount (formatAmount x d) d = decReprStr x := by
  have hdiv : jsPow10 d = 10 ^ d := jsPow10_eq_pow hd
  have hpow : (0 : Nat) < 10 ^ d := pow_pos (by norm_num) d
  have hx : 10 ^ d * (x / 10 ^ d) + x % 10 ^ d = x := Nat.div_add_mod x (10 ^ d)
  have hflt : x % 10 ^ d < 10 ^ d := Nat.mod_lt x hpow
  unfold formatAmount
  rw [hdiv]
  by_cases hf : x % 10 ^ d = 0
  · rw [if_pos hf, parseAmount_whole]
    congr 1
    exact Nat.div_mul_cancel (Nat.dvd_of_mod_eq_zero hf)
  · rw [if_neg hf, parseAmount_frac (x / 10 ^ d) (x % 10 ^ d) d hf hflt]
    congr 1
    rw [mul_comm]
    exact hx

/-! ## Claim theorems -/

set_option maxRecDepth 200000

/-- C1 counterexample: the claimed "minimum output equals the quoted
output amount if and only if `slippageBps = 0`" fails at `outAmount = 0`:
with slippage 1 bps the minimum output still equals the (zero) output
amount. -/
theorem calculateMinimumOutput_zero_counterexample :
    calculateMinimumOutput 0 1 = 0 ∧ (1 : Int) ≠ 0 := by decide

/-- C1 (amended): for `outAmount ≥ 0` and `slippageBps ∈ [0, 10000]`,
`calculateMinimumOutput` returns `⌊outAmount * (10000 - slippageBps) /
10000⌋` (characterized by the floor bounds), which is at most `outAmount`,
with equality iff `slippageBps = 0` **or** `outAmount = 0`. -/
theorem calculateMinimumOutput_spec (outAmount slippageBps : Int)
    (hA : 0 ≤ outAmount) (h0 : 0 ≤ slippageBps) (h1 : slippageBps ≤ 10000) :
    (10000 * calculateMinimumOutput outAmount slippageBps
        ≤ outAmount * (10000 - slippageBps) ∧
      outAmount * (10000 - slippageBps)
        < 10000 * (calculateMinimumOutput outAmount slippageBps + 1)) ∧
    calculateMinimumOutput outAmount slippageBps ≤ outAmount ∧
    (calculateMinimumOutput outAmount slippageBps = outAmount ↔
      slippageBps = 0 ∨ outAmount = 0) := by
  have hs : (0 : Int) ≤ 10000 - slippageBps := by omega
  have hN : (0 : Int) ≤ outAmount * (10000 - slippageBps) := mul_nonneg hA hs
  have htdiv : calculateMinimumOutput outAmount slippageBps
      = outAmount * (10000 - slippageBps) / 10000 := by
    unfold calculateMinimumOutput
    exact Int.tdiv_eq_ediv hN (by norm_num)
  set N := outAmount * (10000 - slippageBps) with hNdef
  have hmod : N % 10000 = N - 10000 * (N / 10000) := Int.emod_def N 10000
  have hmod0 : 0 ≤ N % 10000 := Int.emod_nonneg N (by norm_num)
  have hmodlt : N % 10000 < 10000 := Int.emod_lt_of_pos N (by norm_num)
  have hfloor : 10000 * (N / 10000) ≤ N ∧ N < 10000 * (N / 10000 + 1) := by
    constructor <;> omega
  have hprod : 0 ≤ outAmount * slippageBps := mul_nonneg hA h0
  have hexpand : N = 10000 * outAmount - outAmount * slippageBps := by
    rw [hNdef]; ring
  refine ⟨by rw [htdiv]; exact hfloor, ?_, ?_⟩
  · rw [htdiv]
    have h10 : 10000 * (N / 10000) ≤ 10000 * outAmount := by omega
    exact le_of_mul_le_mul_left h10 (by norm_num)
  · rw [htdiv]
    constructor
    · intro heq
      have : 10000 * outAmount ≤ N := by omega
      have hle : outAmount * slippageBps ≤ 0 := by omega
      have hz : outAmount * slippageBps = 0 := le_antisymm hle hprod
      rcases mul_eq_zero.mp hz with h | h
      · exact Or.inr h
      · exact Or.inl h
    · intro h
      rcases h with h | h
      · subst h
        have : N = outAmount * 10000 := by rw [hNdef]; ring
        rw [this, Int.mul_ediv_cancel _ (by norm_num)]
      · subst h
        have : N = 0 := by rw [hNdef]; ring
        rw [this]
        rfl

/-- C1 witness: the amended theorem applied at `outAmount = 100`,
`slippageBps = 50` (minimum output 99). -/
theorem calculateMinimumOutput_spec_witness :
    calculateMinimumOutput 100 50 = 99 ∧ calculateMinimumOutput 100 50 ≤ 100 := by
  have h := calculateMinimumOutput_spec 100 50 (by decide) (by decide) (by decide)
  refine ⟨?_, h.2.1⟩
  have h1 := h.1.1
  have h2 := h.1.2
  omega

/-- C2 counterexample: for `decimals = 23` the divisor `BigInt(10 **
decimals)` is the binary64 rounding of `10^23`, not `10^23` itself, and the
parse/format round trip fails at `x = 10^23`. -/
theorem parseAmount_formatAmount_counterexample :
    jsPow10 23 ≠ 10 ^ 23 ∧
    parseAmount (formatAmount (10 ^ 23) 23) 23 ≠ decReprStr (10 ^ 23) := by
  decide

/-- C2 (amended): for every raw amount `x` and every `decimals = d ≤ 22`
(the range on which the binary64 expression `10 ** d` is exactly `10^d`),
`parseAmount (formatAmount x d) d` returns the canonical decimal numeral
of `x`. -/
theorem parseAmount_formatAmount_roundTrip (x d : Nat) (hd : d ≤ 22) :
    jsPow10 d = 10 ^ d ∧ parseAmount (formatAmount x d) d = decReprStr x :=
  ⟨jsPow10_eq_pow hd, parseAmount_formatAmount x d hd⟩

/-- C2 witness: the round trip at `x = 1500000`, `d = 6`
(display `"1.5"`). -/
theorem parseAmount_formatAmount_roundTrip_witness :
    6 ≤ 22 ∧
    (jsPow10 6 = 10 ^ 6 ∧
      parseAmount (formatAmount 1500000 6) 6 = decReprStr 1500000) :=
  ⟨by decide, parseAmount_formatAmount_roundTrip 1500000 6 (by decide)⟩

/-- The validator's amount checks pass exactly when the amount is a
present, non-empty numeral with strictly positive value. -/
theorem amountOk_iff (am : Option String) :
    (jsTruthy am = true ∧ amountNotPositive (am.getD "") = false) ↔
    (∃ a, am = some a ∧ a ≠ "" ∧ ∃ q, jsNum? a = some q ∧ 0 < q) := by
  cases am with
  | none => simp [jsTruthy]
  | some a =>
    simp only [jsTruthy, Option.getD_some]
    unfold amountNotPositive
    cases hq : jsNum? a with
    | none => simp [hq]
    | some q => simp [hq, not_le]

theorem mem_ite_nil (c : Prop) [Decidable c] (a m : String) :
    m ∈ (if c then [a] else []) ↔ c ∧ m = a := by
  split <;> simp_all

theorem mem_ite_ite_nil (c1 c2 : Prop) [Decidable c1] [Decidable c2] (a b m : String) :
    m ∈ (if c1 then [a] else if c2 then [b] else []) ↔
      (c1 ∧ m = a) ∨ (¬c1 ∧ c2 ∧ m = b) := by
  split_ifs <;> simp_all

theorem ite_nil_eq_nil (c : Prop) [Decidable c] (a : String) :
    (if c then [a] else []) = [] ↔ ¬c := by
  split <;> simp_all

theorem ite_ite_nil_eq_nil (c1 c2 : Prop) [Decidable c1] [Decidable c2] (a b : String) :
    (if c1 then [a] else if c2 then [b] else []) = [] ↔ ¬c1 ∧ ¬c2 := by
  split_ifs <;> simp_all

/-- C3: `validateQuoteParams` is valid exactly when every rule holds
(truthy input and output mints that differ, an amount parsing to a
strictly positive number, and in-range basis-point fields when present);
each rule, when violated, contributes its own error message regardless of
the other rules; and the equal-mints example returns exactly the
"must be different" error. -/
theorem validateQuoteParams_spec (p : QuoteParams) :
    ((validateQuoteParams p).valid = true ↔
      (jsTruthy p.inputMint = true ∧ jsTruthy p.outputMint = true ∧
       p.inputMint ≠ p.outputMint ∧
       (∃ a, p.amount = some a ∧ a ≠ "" ∧ ∃ q, jsNum? a = some q ∧ 0 < q) ∧
       (∀ s, p.slippageBps = some s → 0 ≤ s ∧ s ≤ 10000) ∧
       (∀ f, p.platformFeeBps = some f → 0 ≤ f ∧ f ≤ 10000))) ∧
    ("Input mint address is required" ∈ (validateQuoteParams p).errors ↔
      jsTruthy p.inputMint = false) ∧
    ("Output mint address is required" ∈ (validateQuoteParams p).errors ↔
      jsTruthy p.outputMint = false) ∧
    ("Amount is required" ∈ (validateQuoteParams p).errors ↔
      jsTruthy p.amount = false) ∧
    ("Amount must be a positive number" ∈ (validateQuoteParams p).errors ↔
      (jsTruthy p.amount = true ∧ amountNotPositive (p.amount.getD "") = true)) ∧
    ("Input and output tokens must be different" ∈ (validateQuoteParams p).errors ↔
      (jsTruthy p.inputMint = true ∧ jsTruthy p.outputMint = true ∧
        p.inputMint = p.outputMint)) ∧
    ("Slippage must be between 0 and 10000 basis points" ∈ (validateQuoteParams p).errors ↔
      (∃ s, p.slippageBps = some s ∧ (s < 0 ∨ s > 10000))) ∧
    ("Platform fee must be between 0 and 10000 basis points" ∈ (validateQuoteParams p).errors ↔
      (∃ f, p.platformFeeBps = some f ∧ (f < 0 ∨ f > 10000))) ∧
    validateQuoteParams ⟨some "A", some "A", some "5", none, none⟩
      = ⟨false, ["Input and output tokens must be different"]⟩ := by
  obtain ⟨im, om, am, sl, pf⟩ := p
  refine ⟨?_, ?_, ?_, ?_, ?_, ?_, ?_, ?_, by decide⟩
  · rw [show (∃ a, am = some a ∧ a ≠ "" ∧ ∃ q, jsNum? a = some q ∧ 0 < q) ↔
      (jsTruthy am = true ∧ amountNotPositive (am.getD "") = false) from
      (amountOk_iff am).symm]
    cases sl <;> cases pf <;>
      simp [validateQuoteParams, ite_nil_eq_nil, ite_ite_nil_eq_nil,
        not_or, not_lt] <;>
      tauto
  all_goals
    cases sl <;> cases pf <;>
      simp [validateQuoteParams, mem_ite_nil, mem_ite_ite_nil]

/-- C4: for quotes of the same swap direction, `compareQuotes` returns
only 1, -1, or 0; under `ExactIn` the higher `outAmount` wins, under
`ExactOut` the lower `inAmount` wins, ties give 0; and the comparison is
antisymmetric. -/
theorem compareQuotes_spec (a b : JupiterQuote) (h : a.swapMode = b.swapMode) :
    (compareQuotes a b = 1 ∨ compareQuotes a b = -1 ∨ compareQuotes a b = 0) ∧
    (a.swapMode = SwapMode.ExactIn →
      ((compareQuotes a b = 1 ↔ a.outAmount > b.outAmount) ∧
       (compareQuotes a b = -1 ↔ a.outAmount < b.outAmount) ∧
       (compareQuotes a b = 0 ↔ a.outAmount = b.outAmount))) ∧
    (a.swapMode = SwapMode.ExactOut →
      ((compareQuotes a b = 1 ↔ a.inAmount < b.inAmount) ∧
       (compareQuotes a b = -1 ↔ a.inAmount > b.inAmount) ∧
       (compareQuotes a b = 0 ↔ a.inAmount = b.inAmount))) ∧
    compareQuotes a b = -compareQuotes b a := by
  unfold compareQuotes
  rcases ha : a.swapMode <;> rcases hb : b.swapMode <;>
    simp_all <;> split_ifs <;> simp_all <;> omega

/-- C4 witness: at the spec's example pair, the higher-output quote
compares as 1 and antisymmetry holds. -/
theorem compareQuotes_spec_witness :
    compareQuotes exactInQuoteHigh exactInQuoteLow = 1 ∧
    compareQuotes exactInQuoteHigh exactInQuoteLow
      = -compareQuotes exactInQuoteLow exactInQuoteHigh := by
  have h := compareQuotes_spec exactInQuoteHigh exactInQuoteLow rfl
  exact ⟨((h.2.1 rfl).1).mpr (by decide), h.2.2.2⟩

/-- Loop invariant for `waitForConfirmationGo`: if no poll in the window
reports confirmed, the timeout result is returned. -/
theorem waitForConfirmationGo_timeout (signature : String)
    (statusResp : Nat → Option SignatureStatusValue)
    (txLookup : Nat → Option (Option Int)) :
    ∀ (r k : Nat),
      (∀ j, j < r → (getTransactionStatus (statusResp (k + j))).confirmed = false) →
      waitForConfirmationGo signature statusResp txLookup k r =
        { signature := signature, confirmed := false, slot := none,
          blockTime := none, err := some "Transaction confirmation timeout" } := by
  intro r
  induction r with
  | zero => intro k _; rfl
  | succ r ih =>
    intro k hall
    have h0 : (getTransactionStatus (statusResp (k + 0))).confirmed = false :=
      hall 0 (Nat.succ_pos r)
    rw [waitForConfirmationGo]
    simp only [Nat.add_zero] at h0
    rw [if_neg (by simp [h0])]
    exact ih (k + 1) (fun j hj => by
      have := hall (j + 1) (by omega)
      simpa [Nat.add_assoc, Nat.add_comm 1 j] using this)

/-- Loop invariant for `waitForConfirmationGo`: the first confirmed poll
in the window determines the result. -/
theorem waitForConfirmationGo_confirm (signature : String)
    (statusResp : Nat → Option SignatureStatusValue)
    (txLookup : Nat → Option (Option Int)) :
    ∀ (r i k : Nat), i < r →
      (∀ j, j < i → (getTransactionStatus (statusResp (k + j))).confirmed = false) →
      (getTransactionStatus (statusResp (k + i))).confirmed = true →
      waitForConfirmationGo signature statusResp txLookup k r =
        { signature := signature, confirmed := true,
          slot := (getTransactionStatus (statusResp (k + i))).slot,
          blockTime := jsBlockTime (txLookup (k + i)),
          err := (getTransactionStatus (statusResp (k + i))).err } := by
  intro r
  induction r with
  | zero => intro i k hi; omega
  | succ r ih =>
    intro i k hi hbefore hconf
    cases i with
    | zero =>
      simp only [Nat.add_zero] at hconf ⊢
      rw [waitForConfirmationGo]
      rw [if_pos (by simp [hconf])]
    | succ i =>
      have h0 : (getTransactionStatus (statusResp (k + 0))).confirmed = false :=
        hbefore 0 (Nat.succ_pos i)
      simp only [Nat.add_zero] at h0
      rw [waitForConfirmationGo]
      rw [if_neg (by simp [h0])]
      have := ih i (k + 1) (by omega)
        (fun j hj => by
          have := hbefore (j + 1) (by omega)
          simpa [Nat.add_assoc, Nat.add_comm 1 j] using this)
        (by
          have := hconf
          rw [show k + (i + 1) = k + 1 + i by omega] at this
          exact this)
      rw [this, show k + 1 + i = k + (i + 1) by omega]

/-- C5: the confirmation poll runs at a fixed 1-second cadence
(`⌈timeoutMs/1000⌉` polls; the 60000 ms default gives 60, a 2000 ms
timeout gives 2); if some poll in that window reports
confirmed/finalized, the result is confirmed with the status's slot, the
follow-up lookup's blockTime and the status's error field; otherwise the
result is exactly the timeout record — returned, not thrown. -/
theorem waitForConfirmation_spec (signature : String)
    (statusResp : Nat → Option SignatureStatusValue)
    (txLookup : Nat → Option (Option Int)) (timeoutMs : Nat) :
    ((∀ k, k < numPolls timeoutMs →
        (getTransactionStatus (statusResp k)).confirmed = false) →
      waitForConfirmation signature statusResp txLookup timeoutMs =
        { signature := signature, confirmed := false, slot := none,
          blockTime := none, err := some "Transaction confirmation timeout" }) ∧
    (∀ i, i < numPolls timeoutMs →
      (∀ j, j < i → (getTransactionStatus (statusResp j)).confirmed = false) →
      (getTransactionStatus (statusResp i)).confirmed = true →
      waitForConfirmation signature statusResp txLookup timeoutMs =
        { signature := signature, confirmed := true,
          slot := (getTransactionStatus (statusResp i)).slot,
          blockTime := jsBlockTime (txLookup i),
          err := (getTransactionStatus (statusResp i)).err }) ∧
    numPolls 2000 = 2 ∧ numPolls 60000 = 60 ∧
    waitForConfirmation signature statusResp txLookup =
      waitForConfirmation signature statusResp txLookup 60000 := by
  refine ⟨?_, ?_, by decide, by decide, rfl⟩
  · intro hall
    exact waitForConfirmationGo_timeout signature statusResp txLookup
      (numPolls timeoutMs) 0 (fun j hj => by simpa using hall j hj)
  · intro i hi hbefore hconf
    have := waitForConfirmationGo_confirm signature statusResp txLookup
      (numPolls timeoutMs) i 0 hi
      (fun j hj => by simpa using hbefore j hj)
      (by simpa using hconf)
    simpa using this

/-- C5 witness: a status source that never confirms, with a 2000 ms
timeout, yields exactly the timeout result. -/
theorem waitForConfirmation_spec_witness :
    waitForConfirmation "sig" (fun _ => none) (fun _ => none) 2000 =
      { signature := "sig", confirmed := false, slot := none,
        blockTime := none, err := some "Transaction confirmation timeout" } :=
  (waitForConfirmation_spec "sig" (fun _ => none) (fun _ => none) 2000).1
    (fun _ _ => rfl)

/-- Loop invariant for `getRecentBlockhashGo`: if attempts `k..k+m-1` fail
and attempt `k+m` succeeds within the budget, the loop returns that
success after linear back-off waits after each failure. -/
theorem getRecentBlockhashGo_success (attempt : Nat → Except String BlockhashResult) :
    ∀ (r m k : Nat) (le : Option String) (ws : List Nat) (b : BlockhashResult),
      m < r →
      (∀ j, j < m → ∃ e, attempt (k + j) = Except.error e) →
      attempt (k + m) = Except.ok b →
      getRecentBlockhashGo attempt k r le ws =
        (Except.ok b, ws ++ (List.range m).map (fun j => 1000 * (k + j + 1))) := by
  intro r
  induction r with
  | zero => intro m k le ws b hm; omega
  | succ r ih =>
    intro m k le ws b hm hfail hok
    cases m with
    | zero =>
      simp only [Nat.add_zero] at hok
      rw [getRecentBlockhashGo, hok]
      simp
    | succ m =>
      obtain ⟨e, he⟩ := hfail 0 (Nat.succ_pos m)
      simp only [Nat.add_zero] at he
      simp only [getRecentBlockhashGo, he]
      have := ih m (k + 1) (some e) (ws ++ [1000 * (k + 1)]) b (by omega)
        (fun j hj => by
          have := hfail (j + 1) (by omega)
          simpa [Nat.add_assoc, Nat.add_comm 1 j] using this)
        (by
          have := hok
          rw [show k + (m + 1) = k + 1 + m by omega] at this
          exact this)
      have hlist : [1000 * (k + 1)] ++ (List.range m).map (fun j => 1000 * (k + 1 + j + 1))
          = (List.range (m + 1)).map (fun j => 1000 * (k + j + 1)) := by
        rw [List.range_succ_eq_map, List.map_cons, List.map_map, List.singleton_append]
        refine congrArg₂ List.cons (by omega) ?_
        apply List.map_congr_left
        intro j _
        simp only [Function.comp_apply]
        omega
      rw [this, List.append_assoc, hlist]

/-- Loop invariant for `getRecentBlockhashGo`: if every attempt in the
budget fails, the loop throws the error of the final attempt. -/
theorem getRecentBlockhashGo_failAll (attempt : Nat → Except String BlockhashResult) :
    ∀ (r k : Nat) (le : Option String) (ws : List Nat) (e : String),
      0 < r →
      (∀ j, j < r → ∃ e', attempt (k + j) = Except.error e') →
      attempt (k + r - 1) = Except.error e →
      (getRecentBlockhashGo attempt k r le ws).1 = Except.error e := by
  intro r
  induction r with
  | zero => intro k le ws e h; omega
  | succ r ih =>
    intro k le ws e _ hfail hlast
    cases r with
    | zero =>
      simp only [Nat.add_sub_cancel] at hlast
      rw [getRecentBlockhashGo, hlast]
      rfl
    | succ r =>
      obtain ⟨e0, he0⟩ := hfail 0 (Nat.succ_pos _)
      simp only [Nat.add_zero] at he0
      simp only [getRecentBlockhashGo, he0]
      apply ih (k + 1) (some e0) _ e (Nat.succ_pos r)
      · intro j hj
        have := hfail (j + 1) (by omega)
        simpa [Nat.add_assoc, Nat.add_comm 1 j] using this
      · have := hlast
        rw [show k + (r + 1 + 1) - 1 = k + 1 + (r + 1) - 1 by omega] at this
        exact this

/-- C6: `getRecentBlockhash` makes up to `maxRetries` attempts (default
3): the first success is returned after linear back-off waits of
`1000 ms * attemptNumber` following each failure, and if every attempt
fails the error thrown is the one from the final attempt. -/
theorem getRecentBlockhash_spec (attempt : Nat → Except String BlockhashResult)
    (maxRetries : Nat) :
    (∀ i b, i < maxRetries →
      (∀ j, j < i → ∃ e, attempt j = Except.error e) →
      attempt i = Except.ok b →
      getRecentBlockhash attempt maxRetries =
        (Except.ok b, (List.range i).map (fun j => 1000 * (j + 1)))) ∧
    (∀ e, 0 < maxRetries →
      (∀ j, j < maxRetries → ∃ e', attempt j = Except.error e') →
      attempt (maxRetries - 1) = Except.error e →
      (getRecentBlockhash attempt maxRetries).1 = Except.error e) ∧
    getRecentBlockhash attempt = getRecentBlockhash attempt 3 := by
  refine ⟨?_, ?_, rfl⟩
  · intro i b hi hfail hok
    have := getRecentBlockhashGo_success attempt maxRetries i 0 none [] b hi
      (fun j hj => by simpa using hfail j hj) (by simpa using hok)
    simpa using this
  · intro e hpos hfail hlast
    exact getRecentBlockhashGo_failAll attempt maxRetries 0 none [] e hpos
      (fun j hj => by simpa using hfail j hj) (by simpa using hlast)

/-- C6 witness: the fail-twice-then-succeed trace returns the third
attempt's blockhash after waits of 1000 ms and 2000 ms. -/
theorem getRecentBlockhash_spec_witness :
    getRecentBlockhash failTwiceAttempt 3 =
      (Except.ok ⟨"hash", 42⟩, [1000, 2000]) := by
  have h := (getRecentBlockhash_spec failTwiceAttempt 3).1 2 ⟨"hash", 42⟩
    (by omega)
    (fun j hj => by
      interval_cases j
      · exact ⟨"boom0", rfl⟩
      · exact ⟨"boom1", rfl⟩)
    rfl
  rw [h]
  rfl

/-- C7: `getRouteSummary` counts as `splitRoutes` exactly the route-plan
steps whose input mint is the quote's input mint; `isDirectRoute` holds iff
the plan has exactly one step or that count is 1; the 60/40 split example
yields `splitRoutes = 2` and `isDirectRoute = false`. -/
theorem getRouteSummary_spec (quote : JupiterQuote) :
    ((getRouteSummary quote).splitRoutes =
      (quote.routePlan.filter
        (fun step => step.swapInfo.inputMint = quote.inputMint)).length) ∧
    ((getRouteSummary quote).isDirectRoute = true ↔
      (quote.routePlan.length = 1 ∨ (getRouteSummary quote).splitRoutes = 1)) ∧
    (getRouteSummary splitRouteQuote).splitRoutes = 2 ∧
    (getRouteSummary splitRouteQuote).isDirectRoute = false := by
  refine ⟨?_, ?_, by decide, by decide⟩
  · cases h : quote.routePlan with
    | nil => simp [getRouteSummary, h]
    | cons s l => simp [getRouteSummary, h]
  · simp [getRouteSummary]

/-- C8 counterexample: for a quote with `priceImpactPct = -2` the code's
efficiency score is 60 (it takes the absolute value of the impact first),
not the claimed `max 0 (100 - priceImpactPct * 20) = 140`. -/
theorem analyzeRouteEfficiency_counterexample :
    (analyzeRouteEfficiency
        ⟨"SOL", "USDC", 1, 1, SwapMode.ExactIn, 0, -2, []⟩).efficiency = 60 ∧
    (analyzeRouteEfficiency
        ⟨"SOL", "USDC", 1, 1, SwapMode.ExactIn, 0, -2, []⟩).efficiency ≠
      max 0 (100 - (-2 : ℚ) * 20) := by
  constructor
  · show max 0 (100 - jsAbs (-2 : ℚ) * 20) = 60
    rw [show jsAbs (-2 : ℚ) = 2 by norm_num [jsAbs]]
    norm_num
  · show max 0 (100 - jsAbs (-2 : ℚ) * 20) ≠ max 0 (100 - (-2 : ℚ) * 20)
    rw [show jsAbs (-2 : ℚ) = 2 by norm_num [jsAbs]]
    norm_num

/-- C8 (amended): the efficiency score is
`max 0 (100 - |priceImpactPct| * 20)` (absolute value of the impact), it
always lies in `[0, 100]`, and the recommendation text is the four-tier
message keyed at thresholds 90 / 70 / 50. -/
theorem analyzeRouteEfficiency_spec (quote : JupiterQuote) :
    ((analyzeRouteEfficiency quote).efficiency
        = max 0 (100 - jsAbs quote.priceImpactPct * 20)) ∧
    (0 ≤ (analyzeRouteEfficiency quote).efficiency ∧
      (analyzeRouteEfficiency quote).efficiency ≤ 100) ∧
    (90 ≤ (analyzeRouteEfficiency quote).efficiency →
      (analyzeRouteEfficiency quote).recommendation
        = "Excellent route with minimal price impact") ∧
    (70 ≤ (analyzeRouteEfficiency quote).efficiency →
      (analyzeRouteEfficiency quote).efficiency < 90 →
      (analyzeRouteEfficiency quote).recommendation
        = "Good route, acceptable price impact") ∧
    (50 ≤ (analyzeRouteEfficiency quote).efficiency →
      (analyzeRouteEfficiency quote).efficiency < 70 →
      (analyzeRouteEfficiency quote).recommendation
        = "Consider using a smaller trade size to reduce price impact") ∧
    ((analyzeRouteEfficiency quote).efficiency < 50 →
      (analyzeRouteEfficiency quote).recommendation
        = "High price impact detected. Consider splitting the trade or waiting for better liquidity") := by
  have habs : 0 ≤ jsAbs quote.priceImpactPct := by
    unfold jsAbs
    split <;> linarith
  have heff : (analyzeRouteEfficiency quote).efficiency
      = max 0 (100 - jsAbs quote.priceImpactPct * 20) := rfl
  have hrec : (analyzeRouteEfficiency quote).recommendation =
      (if (analyzeRouteEfficiency quote).efficiency ≥ 90 then
        "Excellent route with minimal price impact"
      else if (analyzeRouteEfficiency quote).efficiency ≥ 70 then
        "Good route, acceptable price impact"
      else if (analyzeRouteEfficiency quote).efficiency ≥ 50 then
        "Consider using a smaller trade size to reduce price impact"
      else
        "High price impact detected. Consider splitting the trade or waiting for better liquidity") := rfl
  refine ⟨heff, ⟨?_, ?_⟩, ?_, ?_, ?_, ?_⟩
  · rw [heff]; exact le_max_left 0 _
  · rw [heff]
    apply max_le (by norm_num)
    nlinarith [mul_nonneg habs (by norm_num : (0:ℚ) ≤ 20)]
  · intro h
    rw [hrec, if_pos (by exact h)]
  · intro h1 h2
    rw [hrec, if_neg (by simp only [ge_iff_le, not_le]; exact h2), if_pos h1]
  · intro h1 h2
    rw [hrec, if_neg (by simp only [ge_iff_le, not_le]; linarith),
      if_neg (by simp only [ge_iff_le, not_le]; exact h2), if_pos h1]
  · intro h
    rw [hrec, if_neg (by simp only [ge_iff_le, not_le]; linarith),
      if_neg (by simp only [ge_iff_le, not_le]; linarith),
      if_neg (by simp only [ge_iff_le, not_le]; linarith)]

/-- C8 witness: a zero-impact quote scores ≥ 90 and gets the "excellent"
message. -/
theorem analyzeRouteEfficiency_spec_witness :
    (analyzeRouteEfficiency
        ⟨"SOL", "USDC", 1, 1, SwapMode.ExactIn, 0, 0, []⟩).recommendation
      = "Excellent route with minimal price impact" := by
  have h := analyzeRouteEfficiency_spec
    ⟨"SOL", "USDC", 1, 1, SwapMode.ExactIn, 0, 0, []⟩
  apply h.2.2.1
  rw [h.1]
  rw [show jsAbs (0 : ℚ) = 0 from rfl]
  norm_num

/-- C9 counterexample: when the ledger reports a fee of 0 (present, not
null), the code still returns the 5000 fallback — so the fallback is not
used "exactly when" the ledger cannot supply a fee. -/
theorem estimateTransactionFee_counterexample :
    estimateTransactionFee ⟨some 0⟩ = 5000 ∧
    (⟨some 0⟩ : FeeForMessageResponse).value ≠ none ∧
    estimateTransactionFee ⟨some 0⟩ ≠ 0 := by decide

/-- C9 (amended): `estimateTransactionFee` returns the reported fee when
it is present and nonzero, and returns the 5000 fallback when the fee is
null **or zero** (any falsy value), never raising. -/
theorem estimateTransactionFee_spec (fee : FeeForMessageResponse) :
    (∀ v, fee.value = some v → v ≠ 0 → estimateTransactionFee fee = v) ∧
    (fee.value = none → estimateTransactionFee fee = 5000) ∧
    (fee.value = some 0 → estimateTransactionFee fee = 5000) := by
  obtain ⟨v⟩ := fee
  refine ⟨?_, ?_, ?_⟩
  · rintro w rfl hw
    simp [estimateTransactionFee, hw]
  · rintro rfl
    rfl
  · rintro rfl
    rfl

/-- C9 witness: a reported fee of 7000 is returned as is. -/
theorem estimateTransactionFee_spec_witness :
    estimateTransactionFee ⟨some 7000⟩ = 7000 :=
  (estimateTransactionFee_spec ⟨some 7000⟩).1 7000 rfl (by decide)

/-- C10: with `directOnly` as the only criterion, `filterRoutes` keeps
exactly the quotes whose route plan has at most one step; this is strictly
narrower than `getRouteSummary.isDirectRoute`, which accepts the
single-branch two-hop quote that `filterRoutes` rejects. -/
theorem filterRoutes_directOnly_spec (quotes : List JupiterQuote) :
    filterRoutes quotes directOnlyCriteria
      = quotes.filter (fun q => q.routePlan.length ≤ 1) ∧
    twoHopQuote.routePlan.length = 2 ∧
    (getRouteSummary twoHopQuote).isDirectRoute = true ∧
    filterRoutes [twoHopQuote] directOnlyCriteria = [] := by
  refine ⟨?_, by decide, by decide, by decide⟩
  unfold filterRoutes
  apply List.filter_congr
  intro q _
  by_cases hle : q.routePlan.length ≤ 1
  · have hgt : ¬(q.routePlan.length > 1) := by omega
    simp [quotePasses, directOnlyCriteria, hle, hgt]
  · have hgt : q.routePlan.length > 1 := by omega
    simp [quotePasses, directOnlyCriteria, hle, hgt]
